import Mathlib

/-!
Verification of the lead-generator voice-calling subsystem.

This file gives a shallow embedding, in Lean 4, of the voice-call
compliance, dispatch, campaign, webhook-ingestion, outcome-classification
and statistics code of the repository (`src/bland-ai-service.js` and
`src/webhook-server.js`), and proves or refutes the specified properties
of that code.

Modelling conventions:
* JavaScript strings are `String`; `null`/`undefined` string fields are
  `Option String`, and JavaScript truthiness of a string option is the
  `truthy` predicate below (`none` and `some ""` are falsy).
* Machine numbers are `Int`/`Nat`; `NaN` produced by a failed
  `Number(...)` parse is `Option.none`, and a comparison against it is
  false, exactly as in JavaScript.
* Asynchronous I/O (the provider HTTP call, timers, file writes) is made
  explicit: functions take the environment data they would read (the
  timezone-converted clock reading, the provider response) as arguments
  and return a flag or trace recording the I/O they would perform.
-/

namespace LeadGen

/-- JavaScript truthiness of a nullable string: `null`/`undefined`
and the empty string are falsy; every other string is truthy. -/
def truthy : Option String → Bool
  | none => false
  | some s => s ≠ ""

/-! ## Clock reading and configured call hours (ComplianceGate)

`BlandAIService.isWithinCallHours` converts `now` to the configured IANA
timezone with `Intl.DateTimeFormat(...).formatToParts`, extracting a
weekday name and an hour/minute pair.  We model the result of that
conversion as an `Option LocalParts`: `none` stands for any failure of
the conversion (unknown timezone, missing parts), which in the source
lands in the `catch` branch and returns `false`. -/

/-- Day of week, as produced by the timezone-aware formatter. -/
inductive Weekday
  | sunday
  | monday
  | tuesday
  | wednesday
  | thursday
  | friday
  | saturday
deriving DecidableEq, Repr

/-- The weekday test of `isWithinCallHours`: membership of the formatted
weekday name in `['Monday','Tuesday','Wednesday','Thursday','Friday']`. -/
def isBusinessWeekday : Weekday → Bool
  | .monday => true
  | .tuesday => true
  | .wednesday => true
  | .thursday => true
  | .friday => true
  | _ => false

/-- The weekday, hour and minute extracted from `now` after conversion to
the configured timezone. -/
structure LocalParts where
  weekday : Weekday
  hour : Nat
  minute : Nat
deriving DecidableEq, Repr

/-- Digit-string value accumulator used to model `Number(...)`. -/
def natOfDigits (cs : List Char) : Nat :=
  cs.foldl (fun acc c => acc * 10 + (c.toNat - 48)) 0

/-- ASCII whitespace, the fragment of the JavaScript `\s` class and of
the `Number(...)` trimming relevant to the modelled inputs. -/
def isJsWhitespace (c : Char) : Bool :=
  c = ' ' || c = '\t' || c = '\n' || c = '\r' || c = '\x0b' || c = '\x0c'

/-- Leading and trailing whitespace removal over the character list. -/
def jsTrimChars (cs : List Char) : List Char :=
  ((cs.dropWhile isJsWhitespace).reverse.dropWhile isJsWhitespace).reverse

/-- Splitting a character list on a separator character, matching the
JavaScript `String.prototype.split` with a single-character separator
(the result always has one more part than there are separators). -/
def splitOnChar (sep : Char) : List Char → List (List Char)
  | [] => [[]]
  | c :: cs =>
      match splitOnChar sep cs, decide (c = sep) with
      | r, true => [] :: r
      | [], false => [[c]]
      | h :: t, false => (c :: h) :: t

/-- Model of the JavaScript `Number(cs)` conversion, restricted to the
integral decimal strings that occur in `HH:MM` configuration values:
surrounding whitespace is trimmed, the empty string converts to `0`, an
optionally signed all-digit string converts to its value, and anything
else yields `none`, standing for `NaN` (fractional, exponent and hex
forms are outside the configurations modelled here). -/
def jsStringToNumber (cs : List Char) : Option Int :=
  match jsTrimChars cs with
  | [] => some 0
  | '-' :: rest =>
      if rest ≠ [] ∧ rest.all Char.isDigit then some (-(natOfDigits rest : Int)) else none
  | '+' :: rest =>
      if rest ≠ [] ∧ rest.all Char.isDigit then some (natOfDigits rest : Int) else none
  | t => if t.all Char.isDigit then some (natOfDigits t : Int) else none

/-- Model of `const [h, m] = s.split(':').map(Number); h * 60 + m` from
`isWithinCallHours`: `none` when either component is `NaN` (including a
missing `:` separator, where `m` is `undefined`), in which case every
comparison against the sum is false in the source. -/
def hhmmMinutes (s : String) : Option Int :=
  let parts := splitOnChar ':' s.data
  match (parts.get? 0).bind jsStringToNumber, (parts.get? 1).bind jsStringToNumber with
  | some h, some m => some (h * 60 + m)
  | _, _ => none

/-- The compliance-relevant configuration of `BlandAIService` together
with its in-memory state: configured call hours (strings in `HH:MM`
form) and the do-not-call `Set`.  The set is modelled as a duplicate-free
list of its string elements; `Set.add` of the `null` produced by
formatting a falsy number is not modelled (no claim concerns it). -/
structure ServiceState where
  callHoursStart : String
  callHoursEnd : String
  doNotCallList : List String
deriving DecidableEq, Repr

/-- Embedding of `BlandAIService.isWithinCallHours`.  `localNow` is the
timezone-converted clock reading; `none` models any conversion failure
(the `catch` branch of the source, which returns `false`). -/
def isWithinCallHours (st : ServiceState) (localNow : Option LocalParts) : Bool :=
  match localNow with
  | none => false
  | some p =>
      if isBusinessWeekday p.weekday then
        let currentMinutes : Int := ((p.hour * 60 + p.minute : Nat) : Int)
        match hhmmMinutes st.callHoursStart, hhmmMinutes st.callHoursEnd with
        | some startMinutes, some endMinutes =>
            decide (startMinutes ≤ currentMinutes ∧ currentMinutes ≤ endMinutes)
        | some _, none => false
        | none, some _ => false
        | none, none => false
      else false

/-- C1: the business-hours check allows a call exactly when the
timezone conversion succeeded, the local day is Monday through Friday,
both configured hour strings parse, and the local minutes-since-midnight
lie inclusively between the parsed start and end; in particular it
allows at the start minute and at the end minute, denies one minute
outside either boundary, denies on Saturday and Sunday regardless of the
other fields, and denies (never allows) whenever the timezone
resolution or the hour parsing fails. -/
theorem claim1_isWithinCallHours_iff (st : ServiceState) (localNow : Option LocalParts) :
    isWithinCallHours st localNow = true ↔
      ∃ p, localNow = some p ∧ isBusinessWeekday p.weekday = true ∧
        ∃ startMinutes endMinutes,
          hhmmMinutes st.callHoursStart = some startMinutes ∧
          hhmmMinutes st.callHoursEnd = some endMinutes ∧
          startMinutes ≤ ((p.hour * 60 + p.minute : Nat) : Int) ∧
          ((p.hour * 60 + p.minute : Nat) : Int) ≤ endMinutes := by
  cases localNow with
  | none => simp [isWithinCallHours]
  | some p =>
      cases hs : hhmmMinutes st.callHoursStart with
      | none =>
          cases he : hhmmMinutes st.callHoursEnd with
          | none => simp [isWithinCallHours, hs, he]
          | some em => simp [isWithinCallHours, hs, he]
      | some sm =>
          cases he : hhmmMinutes st.callHoursEnd with
          | none => simp [isWithinCallHours, hs, he]
          | some em =>
              by_cases hw : isBusinessWeekday p.weekday = true
              · simp only [isWithinCallHours, hs, he, if_pos hw, Bool.and_eq_true,
                  decide_eq_true_eq]
                constructor
                · rintro ⟨h1, h2⟩
                  exact ⟨p, rfl, hw, sm, em, rfl, rfl, h1, h2⟩
                · rintro ⟨q, hq, hwq, sm', em', hsm', hem', h1, h2⟩
                  obtain rfl : p = q := Option.some.inj hq
                  obtain rfl : sm = sm' := Option.some.inj hsm'
                  obtain rfl : em = em' := Option.some.inj hem'
                  exact ⟨h1, h2⟩
              · simp only [isWithinCallHours, hs, he, if_neg hw]
                constructor
                · intro h
                  exact (Bool.false_ne_true h).elim
                · rintro ⟨q, hq, hwq, _⟩
                  obtain rfl : p = q := Option.some.inj hq
                  exact absurd hwq hw

/-! ## Phone-number normalization and validation -/

/-- The character filter `phoneNumber.replace(/[^\d\+]/g, '')` shared by
`formatPhoneNumber` and `isValidPhoneNumber`: keep ASCII digits and
every `+`, wherever it occurs. -/
def cleanPhoneChars (s : String) : List Char :=
  s.data.filter (fun c => c.isDigit || c = '+')

/-- Embedding of `BlandAIService.formatPhoneNumber`: `none` models the
`null` returned for a falsy argument (here, the empty string), otherwise
`+1` is prepended to a bare 10-character cleaned string, `+` to an
11-character cleaned string starting with `1`, and `+` to any other
cleaned string not already starting with `+`. -/
def formatPhoneNumber (phoneNumber : String) : Option String :=
  if phoneNumber = "" then none
  else
    let cleaned := cleanPhoneChars phoneNumber
    if cleaned.length = 10 ∧ ¬ ("+".data <+: cleaned) then
      some ("+1" ++ String.mk cleaned)
    else if cleaned.length = 11 ∧ ("1".data <+: cleaned) ∧ ¬ ("+".data <+: cleaned) then
      some ("+" ++ String.mk cleaned)
    else if ("+").data <+: cleaned then some (String.mk cleaned)
    else some ("+" ++ String.mk cleaned)

/-- Core of the validation regex
`^(\+?1?)?[2-9]\d{2}[2-9]\d{2}\d{4}$`: exactly ten digits whose first
and fourth characters are in `2..9`. -/
def validPhoneCore : List Char → Bool
  | [a, b, c, d, e, f, g, h, i, j] =>
      ('2' ≤ a ∧ a ≤ '9') ∧ b.isDigit ∧ c.isDigit ∧
      ('2' ≤ d ∧ d ≤ '9') ∧ e.isDigit ∧ f.isDigit ∧
      g.isDigit ∧ h.isDigit ∧ i.isDigit ∧ j.isDigit
  | _ => false

/-- Embedding of `BlandAIService.isValidPhoneNumber`: the cleaned string
must match the regex, whose optional prefix group `(\+?1?)?` admits
exactly the prefixes ` `` `, `+`, `1` and `+1` before the ten-digit
core. -/
def isValidPhoneNumber (phoneNumber : String) : Bool :=
  if phoneNumber = "" then false
  else
    let cleaned := cleanPhoneChars phoneNumber
    [([] : List Char), ['+'], ['1'], ['+', '1']].any
      (fun pre => pre.isPrefixOf cleaned && validPhoneCore (cleaned.drop pre.length))

/-- Embedding of `BlandAIService.isOnDoNotCallList`: format the
candidate number, then test membership in the caller-supplied array and
in the service's own `Set`.  A `null` formatted number (falsy input) is
a member of neither. -/
def isOnDoNotCallList (st : ServiceState) (phoneNumber : String)
    (doNotCallListParam : List String) : Bool :=
  match formatPhoneNumber phoneNumber with
  | some f => doNotCallListParam.contains f || st.doNotCallList.contains f
  | none => false

/-- Embedding of `BlandAIService.addToDoNotCallList`: add the formatted
number to the in-memory `Set` (as a list kept duplicate-free); adding a
falsy number, which the source would record as `null`, leaves the
modelled set unchanged. -/
def serviceAddToDoNotCall (st : ServiceState) (phoneNumber : String) : ServiceState :=
  match formatPhoneNumber phoneNumber with
  | some f =>
      { st with doNotCallList :=
          if st.doNotCallList.contains f then st.doNotCallList else st.doNotCallList ++ [f] }
  | none => st

/-! ## Call dispatch (`BlandAIService.makeCall`)

The provider HTTP exchange is made explicit: `makeCall` receives the
response the provider would give and returns, besides the call result,
a flag recording whether the `fetch` to the provider was performed at
all.  The `activeCalls` tracking map, the rendered script and the
request body are not modelled (no claim concerns them); the `catch`
branch of the source is unreachable in this pure model because every
modelled step is total. -/

/-- Outcome of one dispatch attempt, one constructor per return site of
`makeCall`, in source order. -/
inductive CallResult
  | dryRunSuccess
  | missingName
  | invalidPhone
  | outsideHours
  | doNotCall
  | providerError (httpStatus : Nat)
  | success (callId : String) (status : String)
deriving DecidableEq, Repr

/-- A contact record as consumed by `makeCall`; the empty string models
a missing (falsy) field. -/
structure Contact where
  name : String
  phoneNumber : String
deriving DecidableEq, Repr

/-- The options of `makeCall`/`startCallCampaign` that the claims
concern.  `delayRaw` carries the raw `options.delay` value, `0` standing
for `undefined` exactly as JavaScript `options.delay || 5000` treats
them identically. -/
structure CallOptions where
  dryRun : Bool
  doNotCallList : List String
  delayRaw : Int
deriving DecidableEq, Repr

/-- The provider response to a submitted call, as consumed by
`makeCall` after `await response.json()`. -/
structure ProviderResponse where
  ok : Bool
  httpStatus : Nat
  callId : String
  status : String
deriving DecidableEq, Repr

/-- Embedding of `BlandAIService.makeCall`.  `envVoiceDryRun` models
`process.env.VOICE_DRY_RUN === 'true'`, `localNow` the
timezone-converted clock reading used by the compliance check, and
`provider` the response the provider would return.  The second
component records whether the provider `fetch` was performed. -/
def makeCall (st : ServiceState) (contact : Contact) (opts : CallOptions)
    (envVoiceDryRun : Bool) (localNow : Option LocalParts)
    (provider : ProviderResponse) : CallResult × Bool :=
  if opts.dryRun || envVoiceDryRun then (.dryRunSuccess, false)
  else if contact.name = "" then (.missingName, false)
  else if ¬ isValidPhoneNumber contact.phoneNumber then (.invalidPhone, false)
  else if ¬ isWithinCallHours st localNow then (.outsideHours, false)
  else if isOnDoNotCallList st contact.phoneNumber opts.doNotCallList then (.doNotCall, false)
  else if ¬ provider.ok then (.providerError provider.httpStatus, true)
  else (.success provider.callId provider.status, true)

/-- C2, counterexample: the claim asserts that every non-dry-run
dispatch of a contact whose number is on the do-not-call set yields the
do-not-call rejection, but `makeCall` tests call hours first: on a
Saturday the very same contact is rejected as outside hours instead. -/
theorem claim2_counterexample :
    isOnDoNotCallList ⟨"09:00", "17:00", ["+12345678901"]⟩ "+12345678901" [] = true ∧
    makeCall ⟨"09:00", "17:00", ["+12345678901"]⟩ ⟨"John Doe", "+12345678901"⟩
        ⟨false, [], 0⟩ false (some ⟨.saturday, 10, 0⟩) ⟨true, 200, "id", "queued"⟩ =
      (.outsideHours, false) ∧
    (CallResult.outsideHours ≠ CallResult.doNotCall) := by
  refine ⟨by decide, by decide, by decide⟩

/-- C2 as amended: the do-not-call test holds exactly of numbers whose
`formatPhoneNumber` normal form (non-digits other than `+` stripped,
`+1` prepended to a bare ten-digit result) belongs to the caller list
or the persisted set; and a non-dry-run dispatch of a listed number
never reaches the provider, yielding the do-not-call rejection itself
whenever the name, phone validation and call-hours checks that precede
it all pass. -/
theorem claim2_amended :
    (∀ st p L, isOnDoNotCallList st p L = true ↔
        ∃ f, formatPhoneNumber p = some f ∧ (f ∈ L ∨ f ∈ st.doNotCallList)) ∧
    (∀ p, p ≠ "" → (cleanPhoneChars p).length = 10 → '+' ∉ cleanPhoneChars p →
        formatPhoneNumber p = some ("+1" ++ String.mk (cleanPhoneChars p))) ∧
    (∀ st c o env localNow prov, (o.dryRun || env) = false → c.name ≠ "" →
        isValidPhoneNumber c.phoneNumber = true →
        isWithinCallHours st localNow = true →
        isOnDoNotCallList st c.phoneNumber o.doNotCallList = true →
        makeCall st c o env localNow prov = (.doNotCall, false)) ∧
    (∀ st c o env localNow prov,
        isOnDoNotCallList st c.phoneNumber o.doNotCallList = true →
        (makeCall st c o env localNow prov).2 = false) := by
  refine ⟨?_, ?_, ?_, ?_⟩
  · intro st p L
    unfold isOnDoNotCallList
    cases h : formatPhoneNumber p with
    | none => simp [h]
    | some f =>
        simp only [Bool.or_eq_true]
        constructor
        · rintro (h1 | h2)
          · exact ⟨f, rfl, Or.inl (List.elem_iff.mp h1)⟩
          · exact ⟨f, rfl, Or.inr (List.elem_iff.mp h2)⟩
        · rintro ⟨g, hg, hmem⟩
          obtain rfl : f = g := Option.some.inj hg
          exact hmem.imp (fun h => List.elem_iff.mpr h) (fun h => List.elem_iff.mpr h)
  · intro p hp hlen hplus
    unfold formatPhoneNumber
    rw [if_neg hp]
    have hpre : ¬ ("+".data <+: cleanPhoneChars p) := by
      intro hcontra
      exact hplus (hcontra.subset (by simp))
    rw [if_pos ⟨hlen, hpre⟩]
  · intro st c o env localNow prov hdry hname hvalid hhours hdnc
    unfold makeCall
    rw [hdry]
    simp only [Bool.false_eq_true, if_false]
    rw [if_neg hname, if_neg (by simp [hvalid]), if_neg (by simp [hhours]), if_pos hdnc]
  · intro st c o env localNow prov hdnc
    unfold makeCall
    by_cases h1 : (o.dryRun || env) = true
    · simp [h1]
    · simp only [h1, if_false, Bool.not_eq_true] at *
      rw [if_neg (by simp [h1])]
      by_cases h2 : c.name = ""
      · simp [h2]
      · rw [if_neg h2]
        by_cases h3 : isValidPhoneNumber c.phoneNumber = true
        · rw [if_neg (by simp [h3])]
          by_cases h4 : isWithinCallHours st localNow = true
          · rw [if_neg (by simp [h4]), if_pos hdnc]
          · rw [if_pos (by simp [Bool.not_eq_true] at h4 ⊢; exact h4)]
        · rw [if_pos (by simp [Bool.not_eq_true] at h3 ⊢; exact h3)]

/-- C2 witness: a listed, valid number dispatched on a Monday morning
in non-dry-run mode is rejected as do-not-call without a provider
call. -/
theorem claim2_amended_witness :
    makeCall ⟨"09:00", "17:00", ["+12345678901"]⟩ ⟨"John Doe", "+12345678901"⟩
        ⟨false, [], 0⟩ false (some ⟨.monday, 10, 0⟩) ⟨true, 200, "id", "queued"⟩ =
      (.doNotCall, false) :=
  claim2_amended.2.2.1 ⟨"09:00", "17:00", ["+12345678901"]⟩ ⟨"John Doe", "+12345678901"⟩
    ⟨false, [], 0⟩ false (some ⟨.monday, 10, 0⟩) ⟨true, 200, "id", "queued"⟩
    (by decide) (by decide) (by decide) (by decide) (by decide)

/-- C4, counterexample: the claim asserts phone validation happens
before anything else, but the dry-run short-circuit comes first: a
dry-run request with an invalid phone number returns the simulated
success, not the invalid-phone rejection. -/
theorem claim4_counterexample :
    isValidPhoneNumber ("invalid") = false ∧
    makeCall ⟨"09:00", "17:00", []⟩ ⟨"John Doe", "invalid"⟩ ⟨true, [], 0⟩ false none
        ⟨true, 200, "x", "q"⟩ = (.dryRunSuccess, false) ∧
    (CallResult.dryRunSuccess ≠ CallResult.invalidPhone) := by
  refine ⟨by decide, by decide, by decide⟩

/-- C4 as amended: after the dry-run short-circuit and the
contact-name presence check, an invalid phone number is rejected as
`invalidPhone` before any compliance check; and in non-dry-run mode an
invalid phone number never reaches the provider regardless of the
name. -/
theorem claim4_amended :
    (∀ st c o env localNow prov, (o.dryRun || env) = false → c.name ≠ "" →
        isValidPhoneNumber c.phoneNumber = false →
        makeCall st c o env localNow prov = (.invalidPhone, false)) ∧
    (∀ st c o env localNow prov, (o.dryRun || env) = false →
        isValidPhoneNumber c.phoneNumber = false →
        (makeCall st c o env localNow prov).2 = false) := by
  constructor
  · intro st c o env localNow prov hdry hname hvalid
    unfold makeCall
    rw [hdry]
    simp only [Bool.false_eq_true, if_false]
    rw [if_neg hname, if_pos (by simp [hvalid])]
  · intro st c o env localNow prov hdry hvalid
    unfold makeCall
    rw [hdry]
    simp only [Bool.false_eq_true, if_false]
    by_cases h2 : c.name = ""
    · simp [h2]
    · rw [if_neg h2, if_pos (by simp [hvalid])]

/-- C4 witness: a non-dry-run request with a name and the invalid
number `"invalid"` yields the invalid-phone rejection with no provider
call. -/
theorem claim4_amended_witness :
    makeCall ⟨"09:00", "17:00", []⟩ ⟨"John Doe", "invalid"⟩ ⟨false, [], 0⟩ false none
        ⟨true, 200, "x", "q"⟩ = (.invalidPhone, false) :=
  claim4_amended.1 ⟨"09:00", "17:00", []⟩ ⟨"John Doe", "invalid"⟩ ⟨false, [], 0⟩ false none
    ⟨true, 200, "x", "q"⟩ (by decide) (by decide) (by decide)

/-! ## Campaign orchestration (`startCallCampaign`)

The dispatch loop is embedded as a recursion producing the ordered
trace of its observable actions: one `dispatch` event per contact (in
input order, carrying the one-based `contactIndex` of the source and
the provider-called flag of `makeCall`) and one `delay` event for each
`setTimeout` pacing wait.  The per-iteration clock reading and provider
response are indexed by the contact position, since each loop iteration
reads them anew.  The `catch` branch of the loop is unreachable here
because the embedded `makeCall` is total, exactly as the source
`makeCall` catches its own exceptions and returns error values. -/

/-- Whether a call result counts as `result.success` in the loop. -/
def CallResult.isSuccess : CallResult → Bool
  | .dryRunSuccess => true
  | .success _ _ => true
  | _ => false

/-- Model of `options.delay || 5000`: a zero (or absent) configured
delay falls back to the 5000 ms default. -/
def effectiveDelay (opts : CallOptions) : Int :=
  if opts.delayRaw ≠ 0 then opts.delayRaw else 5000

/-- One observable action of the campaign loop. -/
inductive CampaignEvent
  | dispatch (result : CallResult) (providerCalled : Bool) (contactIndex : Nat)
  | delay (ms : Int)
deriving DecidableEq, Repr

/-- The campaign loop body: dispatch the head contact, then (except
after the last contact, and only for a positive effective delay) wait,
then continue.  `idx` is the one-based index of the head contact. -/
def runCampaignAux (st : ServiceState) (opts : CallOptions) (envVoiceDryRun : Bool)
    (localNow : Nat → Option LocalParts) (provider : Nat → ProviderResponse) :
    List Contact → Nat → List CampaignEvent
  | [], _ => []
  | c :: rest, idx =>
      let r := makeCall st c opts envVoiceDryRun (localNow idx) (provider idx)
      CampaignEvent.dispatch r.1 r.2 idx ::
        ((if rest ≠ [] ∧ 0 < effectiveDelay opts then
            [CampaignEvent.delay (effectiveDelay opts)] else []) ++
          runCampaignAux st opts envVoiceDryRun localNow provider rest (idx + 1))

/-- The per-contact results carried by a trace, in order, with their
one-based contact indices. -/
def campaignDispatches (tr : List CampaignEvent) : List (CallResult × Nat) :=
  tr.filterMap fun e =>
    match e with
    | .dispatch r _ i => some (r, i)
    | .delay _ => none

/-- Whether any dispatch in the trace reached the provider. -/
def providerCalledAny (tr : List CampaignEvent) : Bool :=
  tr.any fun e =>
    match e with
    | .dispatch _ called _ => called
    | .delay _ => false

/-- The delay events of a trace. -/
def campaignDelays (tr : List CampaignEvent) : List CampaignEvent :=
  tr.filter fun e =>
    match e with
    | .delay _ => true
    | .dispatch _ _ _ => false

/-- The aggregate accounting of `startCallCampaign`: per-iteration
`successful`/`failed` counters, `total: contacts.length`, and the
result list in input order (`successRate`, a formatted string, is not
modelled). -/
structure CampaignSummary where
  successful : Nat
  failed : Nat
  total : Nat
  results : List (CallResult × Nat)
deriving DecidableEq, Repr

/-- Embedding of `startCallCampaign`: the summary together with the
full trace of dispatches and pacing delays. -/
def startCallCampaign (st : ServiceState) (opts : CallOptions) (envVoiceDryRun : Bool)
    (localNow : Nat → Option LocalParts) (provider : Nat → ProviderResponse)
    (contacts : List Contact) : CampaignSummary × List CampaignEvent :=
  let tr := runCampaignAux st opts envVoiceDryRun localNow provider contacts 1
  let rs := campaignDispatches tr
  ({ successful := (rs.filter fun p => p.1.isSuccess).length,
     failed := (rs.filter fun p => ¬ p.1.isSuccess).length,
     total := contacts.length,
     results := rs }, tr)

/-- In dry-run mode `makeCall` short-circuits to the simulated success
and performs no provider call. -/
theorem makeCall_dryRun (st : ServiceState) (c : Contact) (opts : CallOptions)
    (env : Bool) (localNow : Option LocalParts) (prov : ProviderResponse)
    (h : (opts.dryRun || env) = true) :
    makeCall st c opts env localNow prov = (.dryRunSuccess, false) := by
  unfold makeCall
  simp [h]

/-- In dry-run mode the dispatch list of the campaign trace is one
simulated success per contact, indexed consecutively from `idx`. -/
theorem campaignDispatches_dryRun (st : ServiceState) (opts : CallOptions) (env : Bool)
    (localNow : Nat → Option LocalParts) (provider : Nat → ProviderResponse)
    (h : (opts.dryRun || env) = true) :
    ∀ (contacts : List Contact) (idx : Nat),
      campaignDispatches (runCampaignAux st opts env localNow provider contacts idx) =
        (List.range' idx contacts.length).map fun i => (CallResult.dryRunSuccess, i) := by
  intro contacts
  induction contacts with
  | nil => intro idx; simp [runCampaignAux, campaignDispatches]
  | cons c rest ih =>
      intro idx
      simp only [runCampaignAux, makeCall_dryRun st c opts env _ _ h]
      by_cases hc : rest ≠ [] ∧ 0 < effectiveDelay opts
      · simp only [campaignDispatches, List.filterMap_cons, List.filterMap_append, if_pos hc,
          List.length_cons]
        rw [show List.range' idx (rest.length + 1) = idx :: List.range' (idx + 1) rest.length
          from rfl, List.map_cons]
        exact congrArg (fun l => (CallResult.dryRunSuccess, idx) :: l) (ih (idx + 1))
      · simp only [campaignDispatches, List.filterMap_cons, List.filterMap_append, if_neg hc,
          List.length_cons]
        rw [show List.range' idx (rest.length + 1) = idx :: List.range' (idx + 1) rest.length
          from rfl, List.map_cons]
        exact congrArg (fun l => (CallResult.dryRunSuccess, idx) :: l) (ih (idx + 1))

/-- In dry-run mode no dispatch of the campaign trace reaches the
provider. -/
theorem providerCalledAny_dryRun (st : ServiceState) (opts : CallOptions) (env : Bool)
    (localNow : Nat → Option LocalParts) (provider : Nat → ProviderResponse)
    (h : (opts.dryRun || env) = true) :
    ∀ (contacts : List Contact) (idx : Nat),
      providerCalledAny (runCampaignAux st opts env localNow provider contacts idx) = false := by
  intro contacts
  induction contacts with
  | nil => intro idx; simp [runCampaignAux, providerCalledAny]
  | cons c rest ih =>
      intro idx
      simp only [runCampaignAux, makeCall_dryRun st c opts env _ _ h]
      by_cases hc : rest ≠ [] ∧ 0 < effectiveDelay opts
      · simpa [providerCalledAny, hc] using ih (idx + 1)
      · simpa [providerCalledAny, hc] using ih (idx + 1)

/-- Counting helper: a list of simulated successes splits into all
successes and no failures. -/
theorem dryRunResultsCount (l : List Nat) :
    (((l.map fun i => (CallResult.dryRunSuccess, i)).filter fun p => p.1.isSuccess).length +
      ((l.map fun i => (CallResult.dryRunSuccess, i)).filter fun p => ¬ p.1.isSuccess).length) =
      l.length := by
  induction l with
  | nil => rfl
  | cons a l ih =>
      simp only [List.map_cons, List.filter_cons]
      simp [CallResult.isSuccess] at ih ⊢
      omega

/-- C9: a dry-run campaign never calls the provider transport, and its
summary has the same shape and counts as a live run: `total` equals the
number of contacts, `successful + failed = total`, and the result list
has one (simulated success) entry per contact, carrying the one-based
contact indices in input order. -/
theorem claim9_dryRunCampaign (st : ServiceState) (opts : CallOptions) (env : Bool)
    (localNow : Nat → Option LocalParts) (provider : Nat → ProviderResponse)
    (contacts : List Contact) (h : (opts.dryRun || env) = true) :
    providerCalledAny (startCallCampaign st opts env localNow provider contacts).2 = false ∧
    (startCallCampaign st opts env localNow provider contacts).1.total = contacts.length ∧
    (startCallCampaign st opts env localNow provider contacts).1.successful +
        (startCallCampaign st opts env localNow provider contacts).1.failed =
      (startCallCampaign st opts env localNow provider contacts).1.total ∧
    (startCallCampaign st opts env localNow provider contacts).1.results =
      (List.range' 1 contacts.length).map fun i => (CallResult.dryRunSuccess, i) := by
  have hd := campaignDispatches_dryRun st opts env localNow provider h contacts 1
  have hp := providerCalledAny_dryRun st opts env localNow provider h contacts 1
  refine ⟨hp, rfl, ?_, hd⟩
  show ((campaignDispatches _).filter _).length + ((campaignDispatches _).filter _).length =
    contacts.length
  rw [hd, dryRunResultsCount]
  simp [List.length_range']

/-- C9 witness: a two-contact dry-run campaign produces two simulated
successes, no provider call, and matching counts. -/
theorem claim9_dryRunCampaign_witness :
    providerCalledAny (startCallCampaign ⟨"09:00", "17:00", []⟩ ⟨true, [], 0⟩ false
        (fun _ => none) (fun _ => ⟨true, 200, "x", "q"⟩)
        [⟨"Ann", "+12345678901"⟩, ⟨"Bob", "invalid"⟩]).2 = false ∧
    (startCallCampaign ⟨"09:00", "17:00", []⟩ ⟨true, [], 0⟩ false
        (fun _ => none) (fun _ => ⟨true, 200, "x", "q"⟩)
        [⟨"Ann", "+12345678901"⟩, ⟨"Bob", "invalid"⟩]).1.total = 2 ∧
    (startCallCampaign ⟨"09:00", "17:00", []⟩ ⟨true, [], 0⟩ false
        (fun _ => none) (fun _ => ⟨true, 200, "x", "q"⟩)
        [⟨"Ann", "+12345678901"⟩, ⟨"Bob", "invalid"⟩]).1.successful +
      (startCallCampaign ⟨"09:00", "17:00", []⟩ ⟨true, [], 0⟩ false
        (fun _ => none) (fun _ => ⟨true, 200, "x", "q"⟩)
        [⟨"Ann", "+12345678901"⟩, ⟨"Bob", "invalid"⟩]).1.failed =
      (startCallCampaign ⟨"09:00", "17:00", []⟩ ⟨true, [], 0⟩ false
        (fun _ => none) (fun _ => ⟨true, 200, "x", "q"⟩)
        [⟨"Ann", "+12345678901"⟩, ⟨"Bob", "invalid"⟩]).1.total := by
  have h := claim9_dryRunCampaign ⟨"09:00", "17:00", []⟩ ⟨true, [], 0⟩ false
    (fun _ => none) (fun _ => ⟨true, 200, "x", "q"⟩)
    [⟨"Ann", "+12345678901"⟩, ⟨"Bob", "invalid"⟩] (by decide)
  exact ⟨h.1, h.2.1, h.2.2.1⟩

/-- With a positive effective delay, the delay events of a campaign
trace are exactly one per inter-contact gap. -/
theorem campaignDelays_runCampaignAux (st : ServiceState) (opts : CallOptions) (env : Bool)
    (localNow : Nat → Option LocalParts) (provider : Nat → ProviderResponse) (D : Int)
    (hD : effectiveDelay opts = D) (hpos : 0 < D) :
    ∀ (contacts : List Contact) (idx : Nat),
      campaignDelays (runCampaignAux st opts env localNow provider contacts idx) =
        List.replicate (contacts.length - 1) (CampaignEvent.delay D) := by
  intro contacts
  induction contacts with
  | nil => intro idx; simp [runCampaignAux, campaignDelays]
  | cons c rest ih =>
      intro idx
      cases rest with
      | nil =>
          simp [runCampaignAux, campaignDelays]
      | cons c2 rest2 =>
          have hc : ((c2 :: rest2 : List Contact) ≠ []) ∧ 0 < effectiveDelay opts := by
            constructor
            · simp
            · rw [hD]; exact hpos
          have step : runCampaignAux st opts env localNow provider (c :: c2 :: rest2) idx =
              CampaignEvent.dispatch
                  (makeCall st c opts env (localNow idx) (provider idx)).1
                  (makeCall st c opts env (localNow idx) (provider idx)).2 idx ::
                CampaignEvent.delay (effectiveDelay opts) ::
                  runCampaignAux st opts env localNow provider (c2 :: rest2) (idx + 1) := by
            rw [runCampaignAux.eq_def]
            simp only [if_pos hc, List.singleton_append]
          rw [step]
          have head : campaignDelays
              (CampaignEvent.dispatch
                  (makeCall st c opts env (localNow idx) (provider idx)).1
                  (makeCall st c opts env (localNow idx) (provider idx)).2 idx ::
                CampaignEvent.delay (effectiveDelay opts) ::
                  runCampaignAux st opts env localNow provider (c2 :: rest2) (idx + 1)) =
              CampaignEvent.delay (effectiveDelay opts) ::
                campaignDelays
                  (runCampaignAux st opts env localNow provider (c2 :: rest2) (idx + 1)) := by
            simp [campaignDelays, List.filter_cons]
          rw [head, ih (idx + 1), hD]
          have hlen : (c :: c2 :: rest2).length - 1 = ((c2 :: rest2).length - 1) + 1 := by
            simp
          rw [hlen, List.replicate_succ]

/-- Every trace takes at least the sum over its delay events, for any
nonnegative per-event duration assignment. -/
theorem sum_map_ge_delays (f : CampaignEvent → Int) (h0 : ∀ e, 0 ≤ f e) :
    ∀ tr : List CampaignEvent, ((campaignDelays tr).map f).sum ≤ (tr.map f).sum := by
  intro tr
  induction tr with
  | nil => simp [campaignDelays]
  | cons e tr ih =>
      cases e with
      | dispatch r b i =>
          have head : campaignDelays (CampaignEvent.dispatch r b i :: tr) =
              campaignDelays tr := by
            simp [campaignDelays, List.filter_cons]
          rw [head, List.map_cons, List.sum_cons]
          have := h0 (.dispatch r b i)
          omega
      | delay d =>
          have head : campaignDelays (CampaignEvent.delay d :: tr) =
              CampaignEvent.delay d :: campaignDelays tr := by
            simp [campaignDelays, List.filter_cons]
          rw [head, List.map_cons, List.map_cons, List.sum_cons, List.sum_cons]
          omega

/-- C10: the campaign loop inserts the configured pacing delay `D`
after every dispatch except the last — exactly `N - 1` delay events for
`N` contacts — so under any execution in which each delay event blocks
for at least its duration and no event takes negative time, the whole
live dispatch takes at least `(N - 1) * D`. -/
theorem claim10_pacing (st : ServiceState) (opts : CallOptions) (env : Bool)
    (localNow : Nat → Option LocalParts) (provider : Nat → ProviderResponse)
    (contacts : List Contact) (D : Int)
    (hD : effectiveDelay opts = D) (hpos : 0 < D) :
    campaignDelays (startCallCampaign st opts env localNow provider contacts).2 =
      List.replicate (contacts.length - 1) (CampaignEvent.delay D) ∧
    ∀ f : CampaignEvent → Int, (∀ d, d ≤ f (.delay d)) → (∀ e, 0 ≤ f e) →
      ((contacts.length - 1 : Nat) : Int) * D ≤
        (((startCallCampaign st opts env localNow provider contacts).2).map f).sum := by
  have hdel : campaignDelays (startCallCampaign st opts env localNow provider contacts).2 =
      List.replicate (contacts.length - 1) (CampaignEvent.delay D) :=
    campaignDelays_runCampaignAux st opts env localNow provider D hD hpos contacts 1
  refine ⟨hdel, ?_⟩
  intro f hf h0
  calc ((contacts.length - 1 : Nat) : Int) * D
      ≤ ((contacts.length - 1 : Nat) : Int) * f (.delay D) := by
        apply mul_le_mul_of_nonneg_left (hf D) (by positivity)
    _ = ((campaignDelays (startCallCampaign st opts env localNow provider contacts).2).map
          f).sum := by
        rw [hdel, List.map_replicate, List.sum_replicate, nsmul_eq_mul]
    _ ≤ _ := sum_map_ge_delays f h0 _

/-- C10 witness: three contacts with a configured 250 ms delay produce
exactly two delay events of 250 ms. -/
theorem claim10_pacing_witness :
    campaignDelays (startCallCampaign ⟨"09:00", "17:00", []⟩ ⟨false, [], 250⟩ false
        (fun _ => none) (fun _ => ⟨true, 200, "x", "q"⟩)
        [⟨"Ann", "+12345678901"⟩, ⟨"Bob", "+12345678901"⟩, ⟨"Cal", "+12345678901"⟩]).2 =
      List.replicate 2 (CampaignEvent.delay 250) :=
  (claim10_pacing ⟨"09:00", "17:00", []⟩ ⟨false, [], 250⟩ false
    (fun _ => none) (fun _ => ⟨true, 200, "x", "q"⟩)
    [⟨"Ann", "+12345678901"⟩, ⟨"Bob", "+12345678901"⟩, ⟨"Cal", "+12345678901"⟩] 250
    (by decide) (by decide)).1

/-! ## Webhook ingestion (`WebhookServer`)

The Hono webhook server of `src/webhook-server.js` is embedded as pure
state transformers over `ServerState`.  File writes (`saveLogsToFile`,
the do-not-call JSON file) are modelled by the corresponding state
components; the `loggedAt`/`timestamp` wall-clock strings attached to
entries are not modelled (no claim concerns them). -/

/-- The provider metadata block of a webhook payload. -/
structure Metadata where
  contact_name : Option String := none
  contact_email : Option String := none
  campaign_id : Option String := none
  phone_number : Option String := none
deriving DecidableEq, Repr

/-- A parsed inbound webhook JSON body; `none` models an absent
field. -/
structure WebhookPayload where
  call_id : Option String := none
  status : Option String := none
  duration : Option Int := none
  outcome : Option String := none
  transcript : Option String := none
  user_input : Option String := none
  metadata : Option Metadata := none
  phone_number : Option String := none
deriving DecidableEq, Repr

/-- A normalized call-log entry: the shape produced by
`processWebhook`, extended with the `action`/`phoneNumber`/`smsMessage`
fields that the action-logging spreads add.  `rawPhone` is
`rawData.phone_number` and `metaPhone` is `metadata.phone_number`, the
two fallback sources of `extractPhoneNumber`. -/
structure LogEntry where
  callId : Option String := none
  status : Option String := none
  duration : Int := 0
  outcome : Option String := none
  transcript : String := ""
  userChoice : Option String := none
  contactName : Option String := none
  contactEmail : Option String := none
  campaignId : Option String := none
  metaPhone : Option String := none
  rawPhone : Option String := none
  phoneNumber : Option String := none
  action : Option String := none
  smsMessage : Option String := none
deriving DecidableEq, Repr

/-- A record of the do-not-call JSON file written by
`WebhookServer.addToDoNotCallList` (its constant `reason` field and
timestamp are not modelled). -/
structure DncEntry where
  phoneNumber : String
  contactName : Option String
  callId : Option String
deriving DecidableEq, Repr

/-- The mutable state of a `WebhookServer` together with the files it
writes: the Calendly link configuration, the in-memory `callLogs`
array (write-through persisted on every append), and the contents of
the do-not-call list file. -/
structure ServerState where
  calendlyLink : Option String := none
  callLogs : List LogEntry := []
  dncFile : List DncEntry := []
deriving DecidableEq, Repr

/-- Embedding of `WebhookServer.logCallOutcome`: push the entry, then
keep only the most recent 1000 entries (`slice(-1000)`). -/
def logCallOutcome (logs : List LogEntry) (callData : LogEntry) : List LogEntry :=
  let l := logs ++ [callData]
  if 1000 < l.length then l.drop (l.length - 1000) else l

/-- A below-cap append does not evict: with at most 999 entries
present, `logCallOutcome` is a plain append. -/
theorem logCallOutcome_no_trim (logs : List LogEntry) (e : LogEntry)
    (h : logs.length ≤ 999) : logCallOutcome logs e = logs ++ [e] := by
  unfold logCallOutcome
  rw [if_neg]
  simp only [List.length_append, List.length_cons, List.length_nil]
  omega

/-- Folding appends through the cap keeps the most recent 1000 entries:
starting below the cap, the result is the suffix of the concatenation
past the first `(start + new) - 1000` entries. -/
theorem logCallOutcome_foldl (evs : List LogEntry) :
    ∀ logs : List LogEntry, logs.length ≤ 1000 →
      List.foldl logCallOutcome logs evs =
        (logs ++ evs).drop (logs.length + evs.length - 1000) := by
  induction evs with
  | nil =>
      intro logs h
      rw [List.foldl_nil, List.append_nil]
      rw [show logs.length + [].length - 1000 = 0 by simp; omega]
      rw [List.drop_zero]
  | cons e rest ih =>
      intro logs h
      rw [List.foldl_cons]
      by_cases hlen : logs.length ≤ 999
      · rw [logCallOutcome_no_trim logs e hlen]
        rw [ih (logs ++ [e])
          (by simp only [List.length_append, List.length_cons, List.length_nil]; omega)]
        rw [List.append_assoc, List.singleton_append]
        have hidx : (logs ++ [e]).length + rest.length - 1000 =
            logs.length + (e :: rest).length - 1000 := by
          simp only [List.length_append, List.length_cons, List.length_nil]
          omega
        rw [hidx]
      · have h1000 : logs.length = 1000 := by omega
        have step : logCallOutcome logs e = (logs ++ [e]).drop 1 := by
          unfold logCallOutcome
          rw [if_pos (by
            simp only [List.length_append, List.length_cons, List.length_nil]
            omega)]
          have hone : (logs ++ [e]).length - 1000 = 1 := by
            simp only [List.length_append, List.length_cons, List.length_nil]
            omega
          rw [hone]
        rw [step]
        rw [ih ((logs ++ [e]).drop 1) (by
          simp only [List.length_drop, List.length_append, List.length_cons, List.length_nil]
          omega)]
        have hdrop : ((logs ++ [e]).drop 1) ++ rest = ((logs ++ [e]) ++ rest).drop 1 :=
          (List.drop_append_of_le_length (by
            simp only [List.length_append, List.length_cons, List.length_nil]
            omega)).symm
        rw [hdrop, List.drop_drop]
        rw [List.append_assoc, List.singleton_append]
        have hidx : 1 + (((logs ++ [e]).drop 1).length + rest.length - 1000) =
            logs.length + (e :: rest).length - 1000 := by
          simp only [List.length_drop, List.length_append, List.length_cons, List.length_nil]
          omega
        rw [hidx]

/-- C6: the in-memory call log is capped at the most recent 1000
entries with FIFO eviction: an append to a log within the cap stays
within the cap, and appending any 1001-event sequence into an empty log
leaves exactly the last 1000 events — the original sequence minus its
first element, order preserved. -/
theorem claim6_logCap :
    (∀ (logs : List LogEntry) (e : LogEntry), logs.length ≤ 1000 →
        (logCallOutcome logs e).length ≤ 1000) ∧
    (∀ evs : List LogEntry, evs.length = 1001 →
        List.foldl logCallOutcome [] evs = evs.drop 1) := by
  constructor
  · intro logs e h
    unfold logCallOutcome
    by_cases hc : 1000 < (logs ++ [e]).length
    · rw [if_pos hc]
      simp only [List.length_drop, List.length_append, List.length_cons, List.length_nil]
      omega
    · rw [if_neg hc]
      simp only [List.length_append, List.length_cons, List.length_nil] at *
      omega
  · intro evs hlen
    rw [logCallOutcome_foldl evs [] (by simp)]
    rw [List.nil_append]
    have hidx : ([] : List LogEntry).length + evs.length - 1000 = 1 := by
      simp only [List.length_nil]
      omega
    rw [hidx]

/-- C6 witness: appending once to an empty log stays within the cap,
and appending 1001 copies of the default entry leaves the last 1000. -/
theorem claim6_logCap_witness :
    (logCallOutcome [] ({} : LogEntry)).length ≤ 1000 ∧
    List.foldl logCallOutcome [] (List.replicate 1001 ({} : LogEntry)) =
      (List.replicate 1001 ({} : LogEntry)).drop 1 :=
  ⟨claim6_logCap.1 [] {} (by simp),
   claim6_logCap.2 (List.replicate 1001 {}) (by rw [List.length_replicate])⟩

/-! ## Outcome classification (`WebhookServer.extractUserChoice`)

The transcript scan `transcript.match(/press(?:ed)?\s*1|one/i)` (and its
`2`/`two` counterpart) is embedded as an executable matcher over the
lowercased character list.  The alternation binds loosely: the pattern
matches `press`, optionally `ed`, then whitespace, then the digit — or
the bare word (`one`/`two`) anywhere in the transcript. -/

/-- Matcher for `\s*d` at the head of the list: any run of whitespace
followed by the character `d`. -/
def spacesThen (d : Char) : List Char → Bool
  | [] => false
  | c :: cs => if c = d then true else if isJsWhitespace c then spacesThen d cs else false

/-- Matcher for `(?:ed)?\s*d` at the head of the list, with the
backtracking of the optional group made explicit. -/
def pressTail (d : Char) (cs : List Char) : Bool :=
  if ("ed").data.isPrefixOf cs then spacesThen d (cs.drop 2) || spacesThen d cs
  else spacesThen d cs

/-- Matcher for `press(?:ed)?\s*d` at the head of the list. -/
def matchPressAt (d : Char) (cs : List Char) : Bool :=
  "press".data.isPrefixOf cs && pressTail d (cs.drop 5)

/-- Matcher for one alternative of the choice regex at the head of the
list: the press pattern, or the bare word. -/
def matchChoiceAt (d : Char) (word : List Char) (cs : List Char) : Bool :=
  matchPressAt d cs || word.isPrefixOf cs

/-- The whole regex test `t.match(/press(?:ed)?\s*d|word/i)`: some
suffix of the lowercased transcript starts with one alternative. -/
def regexTestChoice (d : Char) (word : List Char) (t : String) : Bool :=
  (t.data.map Char.toLower).tails.any (matchChoiceAt d word)

/-- Embedding of `WebhookServer.extractUserChoice`: a truthy
`user_input` field is returned as-is; otherwise the transcript
(defaulted to the empty string) is scanned for the choice-1 pattern,
then the choice-2 pattern. -/
def extractUserChoice (p : WebhookPayload) : Option String :=
  if truthy p.user_input then p.user_input
  else
    let transcript := p.transcript.getD ("")
    if regexTestChoice '1' ("one".data) transcript then some ("1")
    else if regexTestChoice '2' ("two".data) transcript then some ("2")
    else none

/-! ## Webhook processing and action routing (`WebhookServer`) -/

/-- Embedding of `WebhookServer.processWebhook`: normalize a payload
into a log entry (`duration || 0`, `transcript || ''`, user choice
extracted, contact fields lifted out of the metadata block).  The
`action`/`phoneNumber`/`smsMessage` fields are absent (`none`) here;
only the action-logging spreads set them. -/
def processWebhook (p : WebhookPayload) : LogEntry :=
  { callId := p.call_id
    status := p.status
    duration := p.duration.getD 0
    outcome := p.outcome
    transcript := p.transcript.getD ("")
    userChoice := extractUserChoice p
    contactName := p.metadata.bind (fun m => m.contact_name)
    contactEmail := p.metadata.bind (fun m => m.contact_email)
    campaignId := p.metadata.bind (fun m => m.campaign_id)
    metaPhone := p.metadata.bind (fun m => m.phone_number)
    rawPhone := p.phone_number
    phoneNumber := none
    action := none
    smsMessage := none }

/-- Embedding of `WebhookServer.extractPhoneNumber`: the event phone
field, else the raw payload phone, else the metadata phone, first
truthy value wins, else `null`. -/
def extractPhoneNumber (e : LogEntry) : Option String :=
  if truthy e.phoneNumber then e.phoneNumber
  else if truthy e.rawPhone then e.rawPhone
  else if truthy e.metaPhone then e.metaPhone
  else none

/-- Embedding of `WebhookServer.sendCalendlyLink`: with a resolvable
phone number, log an `sms_sent` entry carrying the message (the SMS
handoff itself is a placeholder `console.log` in the source); without
one, do nothing. -/
def sendCalendlyLink (st : ServerState) (pd : LogEntry) : ServerState :=
  match extractPhoneNumber pd with
  | none => st
  | some phone =>
      let msg := "Hi " ++ pd.contactName.getD ("undefined") ++
        "! Thanks for your interest. Please schedule a meeting with our team: " ++
        st.calendlyLink.getD ("undefined")
      let entry : LogEntry :=
        { pd with
          action := some ("sms_sent")
          smsMessage := some msg
          phoneNumber := some phone }
      { st with callLogs := logCallOutcome st.callLogs entry }

/-- Embedding of `WebhookServer.addToDoNotCallList`: with a resolvable
phone number, append an entry to the do-not-call JSON file (a plain
array push — duplicates accumulate) and log an `opted_out` audit entry;
without one, do nothing. -/
def wsAddToDoNotCallList (st : ServerState) (pd : LogEntry) : ServerState :=
  match extractPhoneNumber pd with
  | none => st
  | some phone =>
      let fileEntry : DncEntry :=
        { phoneNumber := phone, contactName := pd.contactName, callId := pd.callId }
      let st1 : ServerState := { st with dncFile := st.dncFile ++ [fileEntry] }
      let entry : LogEntry :=
        { pd with
          action := some ("opted_out")
          phoneNumber := some phone }
      { st1 with callLogs := logCallOutcome st1.callLogs entry }

/-- Embedding of `WebhookServer.handleUserChoice`: choice `1` sends the
Calendly link when one is configured (truthy); choice `2` adds to the
do-not-call list; anything else only logs (already done by the
caller). -/
def handleUserChoice (st : ServerState) (pd : LogEntry) : ServerState :=
  if pd.userChoice = some ("1") then
    if truthy st.calendlyLink then sendCalendlyLink st pd else st
  else if pd.userChoice = some ("2") then wsAddToDoNotCallList st pd
  else st

/-- The webhook endpoint HTTP response: `ok` is the 200 body
`{success: true, message, callId}`; `serverError` is the 500 body
produced when the handler throws (only reachable for an unparseable
request body, which is outside this model of parsed payloads). -/
inductive WebhookResponse
  | ok (callId : Option String)
  | serverError
deriving DecidableEq, Repr

/-- Embedding of the `POST /webhook` route handler: normalize, append
to the log (with cap), route a truthy user choice, respond 200 with the
processed call id.  No validation of `call_id` is performed. -/
def handleWebhookPost (st : ServerState) (payload : WebhookPayload) :
    ServerState × WebhookResponse :=
  let processed := processWebhook payload
  let st1 := { st with callLogs := logCallOutcome st.callLogs processed }
  let st2 := if truthy processed.userChoice then handleUserChoice st1 processed else st1
  (st2, .ok processed.callId)

/-- Action routing only ever appends to the call log: below the cap,
the log after `handleUserChoice` is the log before plus some suffix. -/
theorem handleUserChoice_extends (st : ServerState) (pd : LogEntry)
    (h : st.callLogs.length ≤ 999) :
    ∃ extra, (handleUserChoice st pd).callLogs = st.callLogs ++ extra := by
  unfold handleUserChoice
  by_cases h1 : pd.userChoice = some ("1")
  · rw [if_pos h1]
    by_cases hcal : truthy st.calendlyLink = true
    · rw [if_pos hcal]
      unfold sendCalendlyLink
      cases hp : extractPhoneNumber pd with
      | none => simp only [hp]; exact ⟨[], by simp⟩
      | some phone =>
          simp only [hp]
          exact ⟨_, logCallOutcome_no_trim _ _ h⟩
    · rw [if_neg hcal]
      exact ⟨[], by simp⟩
  · rw [if_neg h1]
    by_cases h2 : pd.userChoice = some ("2")
    · rw [if_pos h2]
      unfold wsAddToDoNotCallList
      cases hp : extractPhoneNumber pd with
      | none => simp only [hp]; exact ⟨[], by simp⟩
      | some phone =>
          simp only [hp]
          exact ⟨_, logCallOutcome_no_trim _ _ h⟩
    · rw [if_neg h2]
      exact ⟨[], by simp⟩

/-- C5, counterexample: the claim asserts that a payload missing the
call identifier is rejected with a client error and not appended, but
the endpoint performs no such validation: a payload with no `call_id`
is appended to the call log and answered with the 200 success response
(echoing the missing id). -/
theorem claim5_counterexample :
    ({ status := some ("completed") } : WebhookPayload).call_id = none ∧
    (handleWebhookPost {} { status := some ("completed") }).2 = WebhookResponse.ok none ∧
    (handleWebhookPost {} { status := some ("completed") }).1.callLogs =
      [processWebhook { status := some ("completed") }] := by
  refine ⟨rfl, rfl, rfl⟩

/-- C5 as amended: the webhook endpoint validates nothing about the
call identifier — every parsed payload, with or without `call_id`, is
normalized, appended to the log, and answered with the success
response echoing the (possibly absent) id.  Only
`BlandAIService.processWebhookData`, which the HTTP endpoint never
calls, reports missing-`call_id` payloads as errors. -/
theorem claim5_amended (st : ServerState) (p : WebhookPayload)
    (h : st.callLogs.length ≤ 998) :
    (handleWebhookPost st p).2 = WebhookResponse.ok p.call_id ∧
    processWebhook p ∈ (handleWebhookPost st p).1.callLogs := by
  constructor
  · rfl
  · have h1 : logCallOutcome st.callLogs (processWebhook p) =
        st.callLogs ++ [processWebhook p] :=
      logCallOutcome_no_trim _ _ (by omega)
    show processWebhook p ∈ (if truthy (processWebhook p).userChoice then
        handleUserChoice
          { st with callLogs := logCallOutcome st.callLogs (processWebhook p) }
          (processWebhook p)
      else
        { st with callLogs := logCallOutcome st.callLogs (processWebhook p) }).callLogs
    by_cases hc : truthy (processWebhook p).userChoice = true
    · rw [if_pos hc]
      obtain ⟨extra, hextra⟩ := handleUserChoice_extends
        { st with callLogs := logCallOutcome st.callLogs (processWebhook p) }
        (processWebhook p) (by simp [h1]; omega)
      rw [hextra]
      show processWebhook p ∈ logCallOutcome st.callLogs (processWebhook p) ++ extra
      rw [h1]
      simp
    · rw [if_neg hc]
      show processWebhook p ∈ logCallOutcome st.callLogs (processWebhook p)
      rw [h1]
      simp

/-- C5 witness: in a fresh server, the missing-`call_id` payload is
answered with success and its normalized event is in the log. -/
theorem claim5_amended_witness :
    (handleWebhookPost {} { outcome := some ("voicemail") }).2 =
      WebhookResponse.ok ({ outcome := some ("voicemail") } : WebhookPayload).call_id ∧
    processWebhook { outcome := some ("voicemail") } ∈
      (handleWebhookPost {} { outcome := some ("voicemail") }).1.callLogs :=
  claim5_amended {} { outcome := some ("voicemail") } (by simp)

/-- C3, counterexample: the claim asserts an opt-out immediately
affects subsequent do-not-call membership tests in the same process,
but the webhook opt-out only appends to the do-not-call JSON file and
the audit log; it never touches the `BlandAIService` in-memory set that
`isOnDoNotCallList` consults (no code connects them), so the
compliance membership test for the opted-out number still fails. -/
theorem claim3_counterexample :
    ((handleWebhookPost {} { call_id := some ("c1"), user_input := some ("2"), phone_number := some ("+12345678901") }).1.dncFile.map fun e => e.phoneNumber) =
      ["+12345678901"] ∧
    ((handleWebhookPost {} { call_id := some ("c1"), user_input := some ("2"), phone_number := some ("+12345678901") }).1.callLogs.filter fun e =>
          e.action = some ("opted_out")).length = 1 ∧
    isOnDoNotCallList ⟨"09:00", "17:00", []⟩ ("+12345678901") [] = false := by
  refine ⟨by decide, by decide, by decide⟩

/-- C3 as amended: the opt-out path appends one do-not-call file entry
for the resolved phone number plus one `opted_out` audit log entry per
occurrence; repeating it appends a duplicate file entry and a second
audit entry while leaving the set of file phone numbers unchanged
(set-level idempotence).  The opt-out does not alter the
`BlandAIService` in-memory do-not-call set; only
`BlandAIService.addToDoNotCallList` does, after which the membership
test accepts that number, and membership, once true, is preserved by
every later addition. -/
theorem claim3_amended :
    (∀ (st : ServerState) (pd : LogEntry) (phone : String),
        extractPhoneNumber pd = some phone → st.callLogs.length ≤ 999 →
        (wsAddToDoNotCallList st pd).dncFile =
          st.dncFile ++ [DncEntry.mk phone pd.contactName pd.callId] ∧
        (wsAddToDoNotCallList st pd).callLogs =
          st.callLogs ++ [{ pd with action := some ("opted_out"), phoneNumber := some phone }]) ∧
    (∀ (st : ServerState) (pd : LogEntry) (phone q : String),
        extractPhoneNumber pd = some phone → st.callLogs.length ≤ 998 →
        ((q ∈ (wsAddToDoNotCallList (wsAddToDoNotCallList st pd) pd).dncFile.map
            fun e => e.phoneNumber) ↔
          (q ∈ (wsAddToDoNotCallList st pd).dncFile.map fun e => e.phoneNumber)) ∧
        ((wsAddToDoNotCallList (wsAddToDoNotCallList st pd) pd).callLogs.filter fun e =>
            e.action = some ("opted_out")).length =
          (st.callLogs.filter fun e => e.action = some ("opted_out")).length + 2) ∧
    (∀ (svc : ServiceState) (p f : String) (L : List String),
        formatPhoneNumber p = some f →
        isOnDoNotCallList (serviceAddToDoNotCall svc p) p L = true) ∧
    (∀ (svc : ServiceState) (q p : String) (L : List String),
        isOnDoNotCallList svc p L = true →
        isOnDoNotCallList (serviceAddToDoNotCall svc q) p L = true) := by
  have hadd : ∀ (st : ServerState) (pd : LogEntry) (phone : String),
      extractPhoneNumber pd = some phone → st.callLogs.length ≤ 999 →
      (wsAddToDoNotCallList st pd).dncFile =
        st.dncFile ++ [DncEntry.mk phone pd.contactName pd.callId] ∧
      (wsAddToDoNotCallList st pd).callLogs =
        st.callLogs ++ [{ pd with action := some ("opted_out"), phoneNumber := some phone }] := by
    intro st pd phone hp hlen
    unfold wsAddToDoNotCallList
    rw [hp]
    exact ⟨rfl, logCallOutcome_no_trim _ _ hlen⟩
  refine ⟨hadd, ?_, ?_, ?_⟩
  · intro st pd phone q hp hlen
    obtain ⟨hd1, hl1⟩ := hadd st pd phone hp (by omega)
    have hlen1 : (wsAddToDoNotCallList st pd).callLogs.length ≤ 999 := by
      rw [hl1]
      simp only [List.length_append, List.length_cons, List.length_nil]
      omega
    obtain ⟨hd2, hl2⟩ := hadd (wsAddToDoNotCallList st pd) pd phone hp hlen1
    constructor
    · rw [hd2, hd1]
      simp only [List.map_append, List.mem_append]
      simp [or_assoc]
    · rw [hl2, hl1]
      simp only [List.filter_append, List.length_append]
      simp
  · intro svc p f L hf
    unfold isOnDoNotCallList serviceAddToDoNotCall
    rw [hf]
    have : f ∈ (if svc.doNotCallList.contains f then svc.doNotCallList
        else svc.doNotCallList ++ [f]) := by
      by_cases hc : svc.doNotCallList.contains f = true
      · rw [if_pos hc]
        exact List.elem_iff.mp hc
      · rw [if_neg hc]
        simp
    simp only [Bool.or_eq_true]
    exact Or.inr (List.elem_iff.mpr this)
  · intro svc q p L hmem
    unfold isOnDoNotCallList at hmem ⊢
    cases hp : formatPhoneNumber p with
    | none => rw [hp] at hmem; exact absurd hmem (by simp)
    | some g =>
        rw [hp] at hmem
        simp only [Bool.or_eq_true] at hmem ⊢
        rcases hmem with hm | hm
        · exact Or.inl hm
        · refine Or.inr ?_
          have hg : g ∈ svc.doNotCallList := List.elem_iff.mp hm
          unfold serviceAddToDoNotCall
          cases hq : formatPhoneNumber q with
          | none => exact List.elem_iff.mpr hg
          | some f2 =>
              apply List.elem_iff.mpr
              by_cases hc : svc.doNotCallList.contains f2 = true
              · simp only [if_pos hc]
                exact hg
              · simp only [if_neg hc]
                exact List.mem_append_left _ hg

/-- C3 witness: adding a number through the service makes the very
next membership test for it succeed. -/
theorem claim3_amended_witness :
    isOnDoNotCallList
      (serviceAddToDoNotCall ⟨"09:00", "17:00", []⟩ ("+12345678901"))
      ("+12345678901") [] = true :=
  claim3_amended.2.2.1 ⟨"09:00", "17:00", []⟩ ("+12345678901") ("+12345678901") []
    (by decide)

/-! ## Declarative characterization of the choice regex -/

/-- Declarative reading of the press alternative
`press(?:ed)?\s*d` anchored at the head of a character list. -/
def PressAt (d : Char) (cs : List Char) : Prop :=
  ∃ ed sp post, cs = "press".data ++ ed ++ sp ++ d :: post ∧
    (ed = [] ∨ ed = "ed".data) ∧ ∀ c ∈ sp, isJsWhitespace c = true

/-- Declarative reading of the whole choice regex over a transcript:
some suffix of the lowercased text starts with the press alternative,
or with the bare word (`one`/`two`). -/
def TranscriptMatch (d : Char) (word : List Char) (t : String) : Prop :=
  ∃ suf, suf <:+ t.data.map Char.toLower ∧ (PressAt d suf ∨ word <+: suf)

/-- The transcript condition as the claim words it: an occurrence of
`press` or `pressed`, then optional whitespace, then the digit or the
spelled-out word. -/
def ClaimedPressChoice (digit : Char) (word : List Char) (t : String) : Prop :=
  ∃ pre ed sp w post, t.data.map Char.toLower =
    pre ++ "press".data ++ ed ++ sp ++ w ++ post ∧
    (ed = [] ∨ ed = "ed".data) ∧ (∀ c ∈ sp, isJsWhitespace c = true) ∧
    (w = [digit] ∨ w = word)

/-- Correctness of the whitespace-then-digit scanner. -/
theorem spacesThen_iff (d : Char) (hd : isJsWhitespace d = false) :
    ∀ cs : List Char, spacesThen d cs = true ↔
      ∃ sp post, cs = sp ++ d :: post ∧ ∀ c ∈ sp, isJsWhitespace c = true := by
  intro cs
  induction cs with
  | nil =>
      simp only [spacesThen]
      constructor
      · intro h
        exact absurd h (by simp)
      · rintro ⟨sp, post, heq, -⟩
        exact absurd heq (by simp)
  | cons c cs ih =>
      simp only [spacesThen]
      by_cases hcd : c = d
      · subst hcd
        rw [if_pos rfl]
        constructor
        · intro _
          exact ⟨[], cs, rfl, by simp⟩
        · intro _
          rfl
      · rw [if_neg hcd]
        by_cases hsp : isJsWhitespace c = true
        · rw [if_pos hsp, ih]
          constructor
          · rintro ⟨sp, post, heq, hall⟩
            refine ⟨c :: sp, post, by rw [heq]; rfl, ?_⟩
            intro x hx
            rcases List.mem_cons.mp hx with rfl | hx
            · exact hsp
            · exact hall x hx
          · rintro ⟨sp, post, heq, hall⟩
            cases sp with
            | nil =>
                simp only [List.nil_append, List.cons.injEq] at heq
                exact absurd heq.1 hcd
            | cons c2 sp2 =>
                simp only [List.cons_append, List.cons.injEq] at heq
                obtain ⟨rfl, hcs⟩ := heq
                exact ⟨sp2, post, hcs, fun x hx => hall x (List.mem_cons_of_mem _ hx)⟩
        · rw [if_neg hsp]
          constructor
          · intro h
            exact absurd h (by simp)
          · rintro ⟨sp, post, heq, hall⟩
            cases sp with
            | nil =>
                simp only [List.nil_append, List.cons.injEq] at heq
                exact absurd heq.1 hcd
            | cons c2 sp2 =>
                simp only [List.cons_append, List.cons.injEq] at heq
                obtain ⟨rfl, -⟩ := heq
                exact absurd (hall c (by simp)) (by simp [hsp])

/-- Correctness of the optional-`ed` scanner step. -/
theorem pressTail_iff (d : Char) (hd : isJsWhitespace d = false) (hde : d ≠ 'e')
    (cs : List Char) :
    pressTail d cs = true ↔
      ∃ ed sp post, cs = ed ++ sp ++ d :: post ∧ (ed = [] ∨ ed = "ed".data) ∧
        ∀ c ∈ sp, isJsWhitespace c = true := by
  unfold pressTail
  by_cases hpre : "ed".data.isPrefixOf cs = true
  · obtain ⟨rest, rfl⟩ : ∃ rest, cs = 'e' :: 'd' :: rest := by
      obtain ⟨t, ht⟩ := List.isPrefixOf_iff_prefix.mp hpre
      exact ⟨t, by rw [← ht]; rfl⟩
    rw [if_pos hpre]
    have hnote : spacesThen d ('e' :: 'd' :: rest) = false := by
      simp only [spacesThen]
      rw [if_neg (fun h => hde h.symm), if_neg (by decide)]
    rw [show (('e' :: 'd' :: rest).drop 2) = rest from rfl, hnote, Bool.or_false,
      spacesThen_iff d hd rest]
    constructor
    · rintro ⟨sp, post, heq, hall⟩
      exact ⟨"ed".data, sp, post, by rw [heq]; rfl, Or.inr rfl, hall⟩
    · rintro ⟨ed, sp, post, heq, hed | hed, hall⟩
      · subst hed
        rw [List.nil_append] at heq
        cases sp with
        | nil =>
            simp only [List.nil_append, List.cons.injEq] at heq
            exact absurd heq.1.symm hde
        | cons c2 sp2 =>
            simp only [List.cons_append, List.cons.injEq] at heq
            obtain ⟨rfl, -⟩ := heq
            exact absurd (hall 'e' (by simp)) (by decide)
      · subst hed
        have hrest : rest = sp ++ d :: post := by
          have : ('e' :: 'd' :: rest) = 'e' :: 'd' :: (sp ++ d :: post) := by
            rw [heq]; rfl
          simpa using this
        exact ⟨sp, post, hrest, hall⟩
  · rw [if_neg hpre, spacesThen_iff d hd cs]
    constructor
    · rintro ⟨sp, post, heq, hall⟩
      exact ⟨[], sp, post, by rw [heq]; rfl, Or.inl rfl, hall⟩
    · rintro ⟨ed, sp, post, heq, hed | hed, hall⟩
      · subst hed
        rw [List.nil_append] at heq
        exact ⟨sp, post, heq, hall⟩
      · subst hed
        exact absurd
          (List.isPrefixOf_iff_prefix.mpr ⟨sp ++ d :: post, heq.symm⟩) hpre

/-- Correctness of the anchored press-pattern scanner. -/
theorem matchPressAt_iff (d : Char) (hd : isJsWhitespace d = false) (hde : d ≠ 'e')
    (cs : List Char) :
    matchPressAt d cs = true ↔ PressAt d cs := by
  unfold matchPressAt PressAt
  by_cases hpre : "press".data.isPrefixOf cs = true
  · obtain ⟨rest, rfl⟩ : ∃ rest, cs = "press".data ++ rest := by
      obtain ⟨t, ht⟩ := List.isPrefixOf_iff_prefix.mp hpre
      exact ⟨t, ht.symm⟩
    rw [hpre, Bool.true_and]
    rw [show (("press".data ++ rest).drop 5) = rest from rfl]
    rw [pressTail_iff d hd hde rest]
    constructor
    · rintro ⟨ed, sp, post, heq, hed, hall⟩
      refine ⟨ed, sp, post, ?_, hed, hall⟩
      rw [heq]
      simp [List.append_assoc]
    · rintro ⟨ed, sp, post, heq, hed, hall⟩
      refine ⟨ed, sp, post, ?_, hed, hall⟩
      have h2 := heq
      rw [List.append_assoc, List.append_assoc] at h2
      have h3 := List.append_cancel_left h2
      rw [h3, List.append_assoc]
  · have hb : "press".data.isPrefixOf cs = false := by
      exact Bool.eq_false_iff.mpr hpre
    rw [hb, Bool.false_and]
    constructor
    · intro h
      exact absurd h (by simp)
    · rintro ⟨ed, sp, post, heq, -, -⟩
      exact absurd
        (List.isPrefixOf_iff_prefix.mpr ⟨ed ++ sp ++ d :: post, heq.symm⟩) hpre

/-- Correctness of the whole regex test against its declarative
reading. -/
theorem regexTestChoice_iff (d : Char) (word : List Char) (t : String)
    (hd : isJsWhitespace d = false) (hde : d ≠ 'e') :
    regexTestChoice d word t = true ↔ TranscriptMatch d word t := by
  unfold regexTestChoice TranscriptMatch
  rw [List.any_eq_true]
  constructor
  · rintro ⟨suf, hmem, hsuf⟩
    have hs : suf <:+ t.data.map Char.toLower := (List.mem_tails _ _).mp hmem
    unfold matchChoiceAt at hsuf
    rw [Bool.or_eq_true] at hsuf
    rcases hsuf with h | h
    · exact ⟨suf, hs, Or.inl ((matchPressAt_iff d hd hde suf).mp h)⟩
    · exact ⟨suf, hs, Or.inr (List.isPrefixOf_iff_prefix.mp h)⟩
  · rintro ⟨suf, hs, h | h⟩
    · refine ⟨suf, (List.mem_tails _ _).mpr hs, ?_⟩
      unfold matchChoiceAt
      rw [Bool.or_eq_true]
      exact Or.inl ((matchPressAt_iff d hd hde suf).mpr h)
    · refine ⟨suf, (List.mem_tails _ _).mpr hs, ?_⟩
      unfold matchChoiceAt
      rw [Bool.or_eq_true]
      exact Or.inr (List.isPrefixOf_iff_prefix.mpr h)

/-- C7, counterexample: the claim asserts the transcript yields
Choice1 exactly on a match of the press/pressed patterns, but the
alternation in `/press(?:ed)?\s*1|one/i` binds loosely: the transcript
`"I will phone you back"` contains no occurrence of `press` at all —
`ClaimedPressChoice` fails because the text does not even contain the
letter `r` — yet the classifier returns Choice1, via the bare substring
`one` inside `phone`. -/
theorem claim7_counterexample :
    extractUserChoice { transcript := some ("I will phone you back") } = some ("1") ∧
    ¬ ClaimedPressChoice '1' ("one".data) ("I will phone you back") := by
  constructor
  · rfl
  · rintro ⟨pre, ed, sp, w, post, heq, -, -, -⟩
    have hr : 'r' ∈ ("I will phone you back".data.map Char.toLower) := by
      rw [heq]
      have hrp : 'r' ∈ "press".data := by decide
      refine List.mem_append.mpr (Or.inl ?_)
      refine List.mem_append.mpr (Or.inl ?_)
      refine List.mem_append.mpr (Or.inl ?_)
      refine List.mem_append.mpr (Or.inl ?_)
      exact List.mem_append.mpr (Or.inr hrp)
    exact absurd hr (by decide)

/-- C7 as amended: a truthy structured `user_input` field is returned
verbatim, winning over any transcript (an empty-string field falls
through); otherwise the transcript yields Choice1 exactly when its
lowercase form contains `press`, optionally `ed`, then whitespace, then
`1` — or contains the substring `one` anywhere; Choice2 likewise with
`2`/`two` but only when the Choice1 pattern is absent; and null exactly
when neither pattern occurs. -/
theorem claim7_amended :
    (∀ p : WebhookPayload, truthy p.user_input = true →
        extractUserChoice p = p.user_input) ∧
    (∀ p : WebhookPayload, truthy p.user_input = false →
        ((extractUserChoice p = some ("1") ↔
            TranscriptMatch '1' ("one".data) (p.transcript.getD (""))) ∧
         (extractUserChoice p = some ("2") ↔
            (¬ TranscriptMatch '1' ("one".data) (p.transcript.getD ("")) ∧
              TranscriptMatch '2' ("two".data) (p.transcript.getD ("")))) ∧
         (extractUserChoice p = none ↔
            (¬ TranscriptMatch '1' ("one".data) (p.transcript.getD ("")) ∧
             ¬ TranscriptMatch '2' ("two".data) (p.transcript.getD ("")))))) := by
  constructor
  · intro p h
    unfold extractUserChoice
    rw [if_pos h]
  · intro p h
    unfold extractUserChoice
    rw [if_neg (by simp [h])]
    have h1 := regexTestChoice_iff '1' ("one".data) (p.transcript.getD (""))
      (by decide) (by decide)
    have h2 := regexTestChoice_iff '2' ("two".data) (p.transcript.getD (""))
      (by decide) (by decide)
    by_cases hb1 : regexTestChoice '1' ("one".data) (p.transcript.getD ("")) = true
    · rw [if_pos hb1]
      have hm1 : TranscriptMatch '1' ("one".data) (p.transcript.getD ("")) := h1.mp hb1
      refine ⟨by simp [hm1], ?_, ?_⟩
      · constructor
        · intro hcontra
          exact absurd hcontra (by simp)
        · rintro ⟨hn1, -⟩
          exact absurd hm1 hn1
      · constructor
        · intro hcontra
          exact absurd hcontra (by simp)
        · rintro ⟨hn1, -⟩
          exact absurd hm1 hn1
    · rw [if_neg hb1]
      have hn1 : ¬ TranscriptMatch '1' ("one".data) (p.transcript.getD ("")) :=
        fun hm => hb1 (h1.mpr hm)
      by_cases hb2 : regexTestChoice '2' ("two".data) (p.transcript.getD ("")) = true
      · rw [if_pos hb2]
        have hm2 : TranscriptMatch '2' ("two".data) (p.transcript.getD ("")) := h2.mp hb2
        refine ⟨?_, by simp [hn1, hm2], ?_⟩
        · constructor
          · intro hcontra
            exact absurd hcontra (by simp)
          · intro hm1
            exact absurd hm1 hn1
        · constructor
          · intro hcontra
            exact absurd hcontra (by simp)
          · rintro ⟨-, hn2⟩
            exact absurd hm2 hn2
      · rw [if_neg hb2]
        have hn2 : ¬ TranscriptMatch '2' ("two".data) (p.transcript.getD ("")) :=
          fun hm => hb2 (h2.mpr hm)
        refine ⟨?_, ?_, by simp [hn1, hn2]⟩
        · constructor
          · intro hcontra
            exact absurd hcontra (by simp)
          · intro hm1
            exact absurd hm1 hn1
        · constructor
          · intro hcontra
            exact absurd hcontra (by simp)
          · rintro ⟨-, hm2⟩
            exact absurd hm2 hn2

/-- C7 witness: a structured choice of `9` wins over a transcript that
would classify as Choice1. -/
theorem claim7_amended_witness :
    extractUserChoice { user_input := some ("9"), transcript := some ("press one") } =
      ({ user_input := some ("9"), transcript := some ("press one") } :
        WebhookPayload).user_input :=
  claim7_amended.1 { user_input := some ("9"), transcript := some ("press one") }
    (by decide)

/-! ## Statistics (`WebhookServer.generateStats`) -/

/-- The statistics record produced by `generateStats`.  `answerRateH`
and `conversionRateH` model the `toFixed(2)` percentage strings as
integer hundredths of a percent (`6000` renders as `60.00`); the
formatted value for `answered = 0` or `total = 0` is the number `0`. -/
structure CallStats where
  total : Nat
  completed : Nat
  failed : Nat
  answered : Nat
  voicemail : Nat
  noAnswer : Nat
  scheduledMeetings : Nat
  optedOut : Nat
  totalDuration : Int
  averageDuration : Int
  answerRateH : Int
  conversionRateH : Int
deriving DecidableEq, Repr

/-- Rounding model: `Math.round(a / b)` for positive `b`, i.e. the
floor of `a / b + 1/2` (half rounds up), computed exactly on integers.
`((a / b) * 100).toFixed(2)` is modelled as `jsRoundDiv (a * 10000) b`
hundredths; the double-precision rounding of `toFixed` agrees with
this exact rounding at every value the claims mention (none sits at a
tie). -/
def jsRoundDiv (a : Int) (b : Nat) : Int :=
  Int.fdiv (2 * a + b) (2 * b)

/-- One iteration of the `generateStats` loop: each matching condition
bumps its counter; a truthy (nonzero) `duration` is added to the
total.  The conditions touch distinct fields, so the source's sequence
of independent `if` statements is one simultaneous update. -/
def statsStep (s : CallStats) (log : LogEntry) : CallStats :=
  { s with
    completed := if log.status = some ("completed") then s.completed + 1 else s.completed
    failed := if log.status = some ("failed") then s.failed + 1 else s.failed
    answered := if log.outcome = some ("answered") then s.answered + 1 else s.answered
    voicemail := if log.outcome = some ("voicemail") then s.voicemail + 1 else s.voicemail
    noAnswer := if log.outcome = some ("no-answer") then s.noAnswer + 1 else s.noAnswer
    scheduledMeetings :=
      if log.userChoice = some ("1") then s.scheduledMeetings + 1 else s.scheduledMeetings
    optedOut :=
      if log.userChoice = some ("2") ∨ log.action = some ("opted_out") then
        s.optedOut + 1 else s.optedOut
    totalDuration :=
      if log.duration ≠ 0 then s.totalDuration + log.duration else s.totalDuration }

/-- The zero-initialized counter record of `generateStats`, with
`total` preset to the log length. -/
def statsInit (n : Nat) : CallStats :=
  { total := n, completed := 0, failed := 0, answered := 0, voicemail := 0,
    noAnswer := 0, scheduledMeetings := 0, optedOut := 0, totalDuration := 0,
    averageDuration := 0, answerRateH := 0, conversionRateH := 0 }

/-- Embedding of `WebhookServer.generateStats`: fold the counters over
the log (`total` is the log length), then derive `averageDuration`
(only when some call completed) and the two rates (zero when their
denominator is zero). -/
def generateStats (logs : List LogEntry) : CallStats :=
  let s := logs.foldl statsStep (statsInit logs.length)
  let s1 := if 0 < s.completed then
    { s with averageDuration := jsRoundDiv s.totalDuration s.completed } else s
  let s2 := { s1 with answerRateH :=
    if 0 < s1.total then jsRoundDiv ((s1.answered : Int) * 10000) s1.total else 0 }
  { s2 with conversionRateH :=
    if 0 < s2.answered then jsRoundDiv ((s2.scheduledMeetings : Int) * 10000) s2.answered
    else 0 }

/-- Modelled from the claim wording `averageDuration is computed over
completed calls only`: the rounded mean of the durations of the
completed calls alone, `0` when none completed.  This is the claim-side
reading, to be compared with `generateStats`. -/
def avgDurationCompletedOnly (logs : List LogEntry) : Int :=
  let completedLogs := logs.filter fun e => e.status = some ("completed")
  if 0 < completedLogs.length then
    jsRoundDiv (completedLogs.map fun e => e.duration).sum completedLogs.length
  else 0

/-- The five-event example log of the specification, with
`choice:`*n* rendered as the classifier output `userChoice` and the
absent duration of the failed call as the falsy `0`. -/
def specExampleLog : List LogEntry :=
  [ { status := some ("completed"), outcome := some ("answered"),
      userChoice := some ("1"), duration := 30 },
    { status := some ("completed"), outcome := some ("answered"),
      userChoice := some ("2"), duration := 20 },
    { status := some ("completed"), outcome := some ("voicemail"), duration := 10 },
    { status := some ("failed"), outcome := some ("no-answer") },
    { status := some ("completed"), outcome := some ("answered"),
      userChoice := some ("1"), duration := 40 } ]

/-- Closed forms of the counter fold: each counter counts its
condition, the duration total sums every duration (a zero duration
contributes nothing either way), and the fields the loop never touches
are preserved. -/
theorem statsFold_fields (logs : List LogEntry) :
    ∀ s : CallStats,
      (logs.foldl statsStep s).scheduledMeetings =
        s.scheduledMeetings + (logs.filter fun e => e.userChoice = some ("1")).length ∧
      (logs.foldl statsStep s).optedOut =
        s.optedOut + (logs.filter fun e =>
          e.userChoice = some ("2") ∨ e.action = some ("opted_out")).length ∧
      (logs.foldl statsStep s).completed =
        s.completed + (logs.filter fun e => e.status = some ("completed")).length ∧
      (logs.foldl statsStep s).totalDuration =
        s.totalDuration + (logs.map fun e => e.duration).sum ∧
      (logs.foldl statsStep s).total = s.total ∧
      (logs.foldl statsStep s).answered =
        s.answered + (logs.filter fun e => e.outcome = some ("answered")).length ∧
      (logs.foldl statsStep s).averageDuration = s.averageDuration := by
  induction logs with
  | nil => intro s; simp
  | cons e logs ih =>
      intro s
      obtain ⟨ih1, ih2, ih3, ih4, ih5, ih6, ih7⟩ := ih (statsStep s e)
      rw [List.foldl_cons] at *
      refine ⟨?_, ?_, ?_, ?_, ?_, ?_, ?_⟩
      · rw [ih1]
        by_cases hc : e.userChoice = some ("1")
        · simp [statsStep, List.filter_cons, hc]
          omega
        · simp [statsStep, List.filter_cons, hc]
      · rw [ih2]
        by_cases hc : e.userChoice = some ("2") ∨ e.action = some ("opted_out")
        · simp [statsStep, List.filter_cons, hc]
          omega
        · simp [statsStep, List.filter_cons, hc]
      · rw [ih3]
        by_cases hc : e.status = some ("completed")
        · simp [statsStep, List.filter_cons, hc]
          omega
        · simp [statsStep, List.filter_cons, hc]
      · rw [ih4]
        by_cases hc : e.duration = 0
        · simp [statsStep, hc]
        · simp [statsStep, hc]
          omega
      · rw [ih5]
        rfl
      · rw [ih6]
        by_cases hc : e.outcome = some ("answered")
        · simp [statsStep, List.filter_cons, hc]
          omega
        · simp [statsStep, List.filter_cons, hc]
      · rw [ih7]
        rfl

/-- The derived-field stage of `generateStats`, expressed over the
folded counters. -/
theorem generateStats_proj (logs : List LogEntry) :
    (generateStats logs).scheduledMeetings =
      (logs.foldl statsStep (statsInit logs.length)).scheduledMeetings ∧
    (generateStats logs).optedOut =
      (logs.foldl statsStep (statsInit logs.length)).optedOut ∧
    (generateStats logs).completed =
      (logs.foldl statsStep (statsInit logs.length)).completed ∧
    (generateStats logs).totalDuration =
      (logs.foldl statsStep (statsInit logs.length)).totalDuration ∧
    (generateStats logs).answered =
      (logs.foldl statsStep (statsInit logs.length)).answered ∧
    (generateStats logs).averageDuration =
      (if 0 < (logs.foldl statsStep (statsInit logs.length)).completed then
        jsRoundDiv (logs.foldl statsStep (statsInit logs.length)).totalDuration
          (logs.foldl statsStep (statsInit logs.length)).completed
       else (logs.foldl statsStep (statsInit logs.length)).averageDuration) ∧
    (generateStats logs).conversionRateH =
      (if 0 < (logs.foldl statsStep (statsInit logs.length)).answered then
        jsRoundDiv
          (((logs.foldl statsStep (statsInit logs.length)).scheduledMeetings : Int) * 10000)
          (logs.foldl statsStep (statsInit logs.length)).answered
       else 0) := by
  unfold generateStats
  refine ⟨?_, ?_, ?_, ?_, ?_, ?_, ?_⟩ <;> (dsimp only; split_ifs <;> rfl)

/-- C8, counterexample: the claim asserts `averageDuration` is
computed over completed calls only, but the numerator sums every
logged duration: with one completed 10-second call and one failed
50-second call the code reports an average of 60, where the average
over completed calls alone is 10. -/
theorem claim8_counterexample :
    (generateStats
      [ { status := some ("completed"), outcome := some ("answered"), duration := 10 },
        { status := some ("failed"), duration := 50 } ]).averageDuration = 60 ∧
    avgDurationCompletedOnly
      [ { status := some ("completed"), outcome := some ("answered"), duration := 10 },
        { status := some ("failed"), duration := 50 } ] = 10 ∧
    (60 : Int) ≠ 10 := by
  refine ⟨by decide, by decide, by decide⟩

/-- C8 as amended: `scheduledMeetings` counts Choice1 entries,
`optedOut` counts Choice2 entries or explicit opt-out actions,
`totalDuration` sums the durations of all logged calls,
`averageDuration` divides that all-call total by the completed count
(rounding half up; zero when nothing completed), `conversionRate` is 0
rather than an error when `answered` is 0, and the five-event example
log yields exactly the claimed figures, with `answerRate` 60.00 and
`conversionRate` 66.67 percent. -/
theorem claim8_amended :
    (∀ logs : List LogEntry,
        (generateStats logs).scheduledMeetings =
          (logs.filter fun e => e.userChoice = some ("1")).length ∧
        (generateStats logs).optedOut =
          (logs.filter fun e =>
            e.userChoice = some ("2") ∨ e.action = some ("opted_out")).length ∧
        (generateStats logs).totalDuration = (logs.map fun e => e.duration).sum ∧
        ((generateStats logs).answered = 0 → (generateStats logs).conversionRateH = 0) ∧
        (0 < (generateStats logs).completed →
          (generateStats logs).averageDuration =
            jsRoundDiv (generateStats logs).totalDuration (generateStats logs).completed)) ∧
    generateStats specExampleLog = ⟨5, 4, 1, 3, 1, 1, 2, 1, 100, 25, 6000, 6667⟩ := by
  constructor
  · intro logs
    obtain ⟨hp1, hp2, hp3, hp4, hp5, hp6, hp7⟩ := generateStats_proj logs
    obtain ⟨hf1, hf2, hf3, hf4, hf5, hf6, hf7⟩ :=
      statsFold_fields logs (statsInit logs.length)
    refine ⟨?_, ?_, ?_, ?_, ?_⟩
    · rw [hp1, hf1]
      simp [statsInit]
    · rw [hp2, hf2]
      simp [statsInit]
    · rw [hp4, hf4]
      simp [statsInit]
    · intro hz
      rw [hp5] at hz
      rw [hp7, if_neg (by omega)]
    · intro hpos
      rw [hp3] at hpos
      rw [hp6, if_pos hpos, hp4, hp3]
  · decide

/-- C8 witness: on the example log (which has completed calls and
answered calls) the amended average-duration equation holds
concretely. -/
theorem claim8_amended_witness :
    (generateStats specExampleLog).averageDuration =
      jsRoundDiv (generateStats specExampleLog).totalDuration
        (generateStats specExampleLog).completed :=
  ((claim8_amended.1 specExampleLog).2.2.2.2) (by decide)

end LeadGen
